import Mathlib

/-!
Shallow embedding of the pvharmo/fuse virtual-filesystem core
(src/fstree.rs and the FUSE handlers of src/fuse.rs, src/fuse/attr.rs,
src/fuse/dir.rs, src/fuse/node.rs, src/fuse/symlink.rs).

Modelling conventions:
* `SystemTime` instants are `Nat` (seconds); `SystemTime::now()` is an explicit
  `now : Nat` parameter.  `Duration::from_secs(1)` is the literal `1`.
* Rust `HashMap`s are association lists (`alget` / `alput` / `aldel`); a
  `HashMap::insert` overwrites, which `alput` mirrors.
* The node graph (`Arc<Mutex<FsNode>>` ownership) is a heap keyed by the node's
  inode, which is unique by construction (`next_inode` is monotone and the
  synthetic root is fixed at inode 1).  The three indices hold heap addresses
  (`Weak` references); a `Weak::upgrade` is a heap lookup.
* Locking a node yields its current heap value; the mutations made under the
  guard are written back with `FsTree.writeback` where the guard is dropped.
  Execution is sequential (the FUSE dispatcher serializes callbacks), so this
  is observationally the Rust behaviour.
* Asynchronous provider calls are explicit `Except Unit _` arguments: the
  response the single provider call of the handler would produce.  Every
  provider call in the source is `.unwrap()`ed, so an `Except.error` response
  makes the handler panic; panics are explicit result constructors carrying
  the state at the moment of the panic.  `providers.get_provider(..).unwrap()`
  is modelled by the `provider_ok : Bool` argument.
-/

namespace Fuse

/-- Association-list lookup (models `HashMap::get`). -/
def alget {κ α : Type} [DecidableEq κ] : List (κ × α) → κ → Option α
  | [], _ => none
  | (a, b) :: rest, k => if a = k then some b else alget rest k

/-- Association-list key removal (models `HashMap::remove`). -/
def aldel {κ α : Type} [DecidableEq κ] (l : List (κ × α)) (k : κ) : List (κ × α) :=
  l.filter (fun x => decide (x.1 ≠ k))

/-- Association-list insert-or-overwrite (models `HashMap::insert`). -/
def alput {κ α : Type} [DecidableEq κ] (l : List (κ × α)) (k : κ) (v : α) : List (κ × α) :=
  (k, v) :: aldel l k

/-- Does the character list start with the pattern? (helper for `str::contains`). -/
def chLead : List Char → List Char → Bool
  | _, [] => true
  | [], _ :: _ => false
  | a :: as, b :: bs => a = b && chLead as bs

/-- Does the character list contain the pattern as a contiguous run? -/
def chSub : List Char → List Char → Bool
  | [], pat => pat.isEmpty
  | a :: as, pat => chLead (a :: as) pat || chSub as pat

/-- Rust `str::contains` on substrings. -/
def strHasSub (s pat : String) : Bool := chSub s.data pat.data

/-- Provider backend type (crossroads `ProviderType`). -/
inductive ProviderType : Type
  | NativeFs | S3 | GoogleDrive | OneDrive
deriving DecidableEq, Repr

/-- crossroads `ProviderId`: an id string plus the backend type. -/
structure ProviderId : Type where
  id : String
  provider_type : ProviderType
deriving DecidableEq, Repr

/-- Kind of a filesystem object.  Serves both as the directory flag carried by
`ObjectId` (crossroads `FileType`) and as the fuser `FileType` in attribute
records (only `Directory` and `RegularFile` are ever produced by this code). -/
inductive FileKind : Type
  | Directory | RegularFile
deriving DecidableEq, Repr

/-- crossroads `ObjectId`: a provider-scoped path string plus a directory flag. -/
structure ObjectId : Type where
  path : String
  kind : FileKind
deriving DecidableEq, Repr

/-- `ObjectId::root()`. -/
def ObjectId.root : ObjectId := { path := "", kind := FileKind.Directory }

/-- `ObjectId::is_directory`. -/
def ObjectId.is_directory (o : ObjectId) : Bool := o.kind = FileKind.Directory

/-- `ObjectId::directory(path)`. -/
def ObjectId.directory (s : String) : ObjectId := { path := s, kind := FileKind.Directory }

/-- `content_state` of a node's children list (src/fstree.rs `FileState`). -/
inductive FileState : Type
  | ShallowReady | Loading | DeepReady
deriving DecidableEq, Repr

/-- Local metadata projection (src/fstree.rs `Metadata`). -/
structure Metadata : Type where
  size : Nat
  blocks : Nat
  atime : Nat
  mtime : Nat
  ctime : Nat
  crtime : Nat
  perm : Nat
  uid : Nat
  gid : Nat
  rdev : Nat
  blksize : Nat
  flags : Nat
deriving DecidableEq, Repr

/-- src/fstree.rs `FsNode`.  `children` holds heap addresses (inodes) of the
owned child nodes, in insertion order. -/
structure FsNode : Type where
  id : ObjectId
  inode : Nat
  name : String
  metadata : Option Metadata
  expire_at : Option Nat
  provider_id : ProviderId
  content_state : FileState
  children : List Nat
deriving DecidableEq, Repr

/-- src/fstree.rs `FsTree`: the three indices, the inode allocator, and the
node storage.  `root` is the synthetic root node (the Rust `root` field, an
`Arc` kept outside the indices); `heap` owns every node ever created by
`new_provider` / `new_file`, keyed by inode. -/
structure FsTree : Type where
  heap : List (Nat × FsNode)
  inodes : List (Nat × Nat)
  names : List ((Nat × String) × Nat)
  ids : List ((ObjectId × ProviderId) × Nat)
  next_inode : Nat
  root : FsNode
deriving DecidableEq, Repr

/-- The sentinel provider id carried by the synthetic root. -/
def rootProviderId : ProviderId := { id := "", provider_type := ProviderType.NativeFs }

/-- The state `FsTree::new` builds before any provider is added: synthetic root
(inode 1, name "/"), empty indices, `next_inode = 2`. -/
def initTree : FsTree :=
  { heap := [], inodes := [], names := [], ids := [], next_inode := 2,
    root := { id := ObjectId.root, inode := 1, name := "/", metadata := none,
              expire_at := none, provider_id := rootProviderId,
              content_state := FileState.ShallowReady, children := [] } }

/-- The node `FsTree::new_provider` allocates. -/
def provNode (id : ObjectId) (name : String) (size : Nat) (pid : ProviderId)
    (inode : Nat) : FsNode :=
  { id := id, name := name, provider_id := pid, inode := inode, expire_at := none,
    metadata := some { size := size, blocks := 0, atime := 0, mtime := 0, ctime := 0,
                       crtime := 0, perm := 0o777, uid := 501, gid := 20, rdev := 0,
                       blksize := 512, flags := 0 },
    content_state := FileState.ShallowReady, children := [] }

/-- src/fstree.rs `FsTree::new_provider`: allocate the next inode, append the
node to the synthetic root's children, insert it into all three indices
(name key under parent 1).  Returns the updated tree and the new address. -/
def FsTree.new_provider (t : FsTree) (id : ObjectId) (name : String) (size : Nat)
    (pid : ProviderId) : FsTree × Nat :=
  ({ heap := alput t.heap t.next_inode (provNode id name size pid t.next_inode),
     inodes := alput t.inodes t.next_inode t.next_inode,
     ids := alput t.ids (id, pid) t.next_inode,
     names := alput t.names (1, name) t.next_inode,
     next_inode := t.next_inode + 1,
     root := { t.root with children := t.root.children ++ [t.next_inode] } }, t.next_inode)

/-- src/fstree.rs `FsTree::new`: seed the root, then add one provider-root node
per supplied provider, named by the provider's id string, in order. -/
def FsTree.new (providers : List ProviderId) : FsTree :=
  providers.foldl (fun t p => (t.new_provider ObjectId.root p.id 0 p).1) initTree

/-- The node `FsTree::new_file` allocates (`expire_at = now + 1 s`). -/
def fileNode (id : ObjectId) (name : String) (metadata : Option Metadata)
    (pid : ProviderId) (inode now : Nat) : FsNode :=
  { id := id, name := name, provider_id := pid, inode := inode,
    expire_at := some (now + 1), metadata := metadata,
    content_state := FileState.ShallowReady, children := [] }

/-- src/fstree.rs `FsTree::new_file`: allocate the next inode, append the new
node to the (locked) parent's children, insert it into all three indices with
no duplicate check (`HashMap::insert` overwrites).  Returns the updated tree,
the updated parent value, and the new address. -/
def FsTree.new_file (t : FsTree) (parent : FsNode) (id : ObjectId) (name : String)
    (metadata : Option Metadata) (pid : ProviderId) (now : Nat) :
    FsTree × FsNode × Nat :=
  ({ t with
      heap := alput t.heap t.next_inode (fileNode id name metadata pid t.next_inode now),
      inodes := alput t.inodes t.next_inode t.next_inode,
      ids := alput t.ids (id, pid) t.next_inode,
      names := alput t.names (parent.inode, name) t.next_inode,
      next_inode := t.next_inode + 1 },
   { parent with children := parent.children ++ [t.next_inode] }, t.next_inode)

/-- src/fstree.rs `FsTree::find_with_inode`: index lookup then `Weak::upgrade`.
Returns the address together with the node value. -/
def FsTree.find_with_inode (t : FsTree) (inode : Nat) : Option (Nat × FsNode) :=
  match alget t.inodes inode with
  | none => none
  | some a =>
    match alget t.heap a with
    | none => none
    | some n => some (a, n)

/-- src/fstree.rs `FsTree::find_with_name`. -/
def FsTree.find_with_name (t : FsTree) (parent_inode : Nat) (name : String) :
    Option (Nat × FsNode) :=
  match alget t.names (parent_inode, name) with
  | none => none
  | some a =>
    match alget t.heap a with
    | none => none
    | some n => some (a, n)

/-- src/fstree.rs `FsTree::find_with_ids`. -/
def FsTree.find_with_ids (t : FsTree) (object_id : ObjectId) (pid : ProviderId) :
    Option (Nat × FsNode) :=
  match alget t.ids (object_id, pid) with
  | none => none
  | some a =>
    match alget t.heap a with
    | none => none
    | some n => some (a, n)

/-- src/fstree.rs `FsTree::rename`: move the name-index entry from
`(parent, old)` to `(parent, new)`; nothing else is touched (in particular the
node's own `name` field is the caller's responsibility). -/
def FsTree.rename (t : FsTree) (parent_inode : Nat) (old_name new_name : String) :
    FsTree :=
  match alget t.names (parent_inode, old_name) with
  | some a =>
    { t with names := alput (aldel t.names (parent_inode, old_name))
                            (parent_inode, new_name) a }
  | none => t

/-- src/fstree.rs `FsTree::remove`: drop the node's entries from the three
indices.  The parent's children list (node ownership) is the caller's
responsibility. -/
def FsTree.remove (t : FsTree) (parent_inode : Nat) (node : FsNode) : FsTree :=
  { t with
      inodes := aldel t.inodes node.inode,
      names := aldel t.names (parent_inode, node.name),
      ids := aldel t.ids (node.id, node.provider_id) }

/-- Dropping a mutable lock guard: the mutated node value becomes visible in
the heap at its address. -/
def FsTree.writeback (t : FsTree) (addr : Nat) (n : FsNode) : FsTree :=
  { t with heap := alput t.heap addr n }

/-- The node stored at an address: the synthetic root lives at address 1,
every other node in the heap. -/
def FsTree.nodeAt (t : FsTree) (a : Nat) : Option FsNode :=
  if a = 1 then some t.root else alget t.heap a

/-- fuser `TimeOrNow` (setattr's atime/mtime argument). -/
inductive TimeOrNow : Type
  | SpecificTime (t : Nat)
  | Now
deriving DecidableEq, Repr

/-- fuser `FileAttr`: the attribute record sent to the kernel. -/
structure FileAttr : Type where
  ino : Nat
  size : Nat
  blocks : Nat
  atime : Nat
  mtime : Nat
  ctime : Nat
  crtime : Nat
  kind : FileKind
  perm : Nat
  nlink : Nat
  uid : Nat
  gid : Nat
  rdev : Nat
  blksize : Nat
  flags : Nat
deriving DecidableEq, Repr

/-- src/fstree.rs `impl From<FsNode> for FileAttr`: project a node onto the
kernel attribute record.  A missing metadata gives the all-default record with
the current time for the four timestamps; `nlink` is the children count and
the kind comes from the object id's directory flag. -/
def FsNode.toFileAttr (node : FsNode) (now : Nat) : FileAttr :=
  let md := node.metadata.getD
    { size := 0, blocks := 0, atime := now, mtime := now, ctime := now, crtime := now,
      perm := 0, uid := 0, gid := 0, rdev := 0, blksize := 512, flags := 0 }
  { ino := node.inode, size := md.size, blocks := md.blocks, atime := md.atime,
    mtime := md.mtime, ctime := md.ctime, crtime := md.crtime,
    kind := if node.id.is_directory then FileKind.Directory else FileKind.RegularFile,
    perm := md.perm, nlink := node.children.length, uid := md.uid, gid := md.gid,
    rdev := md.rdev, blksize := md.blksize, flags := md.flags }

/-- `ENOENT`. -/
def ENOENT : Nat := 2

/-- `EEXIST`. -/
def EEXIST : Nat := 17

/-- `ENOTDIR`. -/
def ENOTDIR : Nat := 20

/-- src/fuse.rs `TTL`: one second, used for every entry/attr reply. -/
def TTL : Nat := 1

/-- src/fuse.rs `ROOT_DIR_ATTR`: the fixed attributes of the synthetic root. -/
def ROOT_DIR_ATTR : FileAttr :=
  { ino := 1, size := 0, blocks := 0, atime := 0, mtime := 0, ctime := 0, crtime := 0,
    kind := FileKind.Directory, perm := 0o755, nlink := 4, uid := 501, gid := 20,
    rdev := 0, blksize := 512, flags := 0 }

/-- A reply sent to the kernel through the fuser reply object. -/
inductive Reply : Type
  | entry (ttl : Nat) (attr : FileAttr) (generation : Nat)
  | attr (ttl : Nat) (attr : FileAttr)
  | data (bytes : List Nat)
  | ok
  | error (errno : Nat)
  | written (n : Nat)
  | opened (fh flags : Nat)
deriving DecidableEq, Repr

/-- Outcome of a handler: a reply with the post-state, a panic (an `unwrap` of
a failed call) with the state at the panic, or blocking forever in the
`Loading` sleep-poll loop. -/
inductive HRes : Type
  | reply (r : Reply) (t : FsTree)
  | panic (t : FsTree)
  | blocked (t : FsTree)
deriving DecidableEq, Repr

/-- The tree a handler outcome leaves behind. -/
def HRes.state : HRes → FsTree
  | .reply _ t => t
  | .panic t => t
  | .blocked t => t

/-- The reply of a handler outcome, if it produced one. -/
def HRes.replyOf : HRes → Option Reply
  | .reply r _ => some r
  | .panic _ => none
  | .blocked _ => none

/-- Did the handler reply with an `entry`? -/
def HRes.isEntry : HRes → Bool
  | .reply (.entry _ _ _) _ => true
  | _ => false

/-- One file of a provider `read_directory` response (crossroads `File`). -/
structure PFile : Type where
  id : ObjectId
  name : String
  metadata : Option Metadata
deriving DecidableEq, Repr

/-- Outcome of `get_children`: the returned children snapshot together with the
updated (still locked) node, the updated tree, and whether `read_directory`
was called; or a panic; or blocking in the `Loading` poll loop. -/
inductive GCRes : Type
  | ret (children : List Nat) (node : FsNode) (t : FsTree) (provider_called : Bool)
  | panic (node : FsNode) (t : FsTree)
  | blocked (node : FsNode) (t : FsTree)
deriving DecidableEq, Repr

/-- The `fuse/mnt` path fragment excluded by `get_children`'s guard. -/
def mntPat : String := "fuse/mnt"

/-- src/fuse.rs `FuseFS::get_children` (lines 101-150).  The node is the
locked directory node; `resp` is what the provider's `read_directory` would
return; `provider_ok` is whether `get_provider` finds the node's provider
(its `.unwrap()` panics otherwise).
* non-directories and paths containing "fuse/mnt" return an empty list;
* `ShallowReady`: set `Loading`, call the provider (panic on error with the
  node left in `Loading`), create one node per returned file via
  `FsTree::new_file`, set `DeepReady`, return the children;
* `Loading`: sleep-poll until the state changes (never, in this sequential
  model): `blocked`;
* `DeepReady`: return the cached children without calling the provider —
  the source never consults `expire_at`. -/
def get_children (provider_ok : Bool) (resp : Except Unit (List PFile)) (now : Nat)
    (node : FsNode) (t : FsTree) : GCRes :=
  if !node.id.is_directory || strHasSub node.id.path mntPat then
    .ret [] node t false
  else if !provider_ok then
    .panic node t
  else
    match node.content_state with
    | FileState.ShallowReady =>
      let node1 := { node with content_state := FileState.Loading }
      match resp with
      | .error _ => .panic node1 t
      | .ok files =>
        let st := files.foldl
          (fun (acc : FsTree × FsNode) f =>
            let r := acc.1.new_file acc.2 f.id f.name f.metadata node.provider_id now
            (r.1, r.2.1))
          (t, node1)
        let node2 := { st.2 with content_state := FileState.DeepReady }
        .ret node2.children node2 st.1 true
    | FileState.Loading => .blocked node t
    | FileState.DeepReady => .ret node.children node t false

/-- src/fuse.rs `Filesystem::lookup` (lines 154-164): a bare name-index lookup;
a hit replies the entry (TTL 1 s), a miss replies `ENOENT`.  No hydration, no
retry, no tree mutation. -/
def lookup (t : FsTree) (parent_inode : Nat) (name : String) (now : Nat) : Reply :=
  match t.find_with_name parent_inode name with
  | some x => .entry TTL (x.2.toFileAttr now) 0
  | none => .error ENOENT

/-- src/fuse/attr.rs `FuseFS::internal_lookup`: name-index lookup; on a miss,
hydrate the parent via `get_children` and retry the lookup once; a hit (first
or retried) replies the entry with TTL 1 s, otherwise `ENOENT`. -/
def internal_lookup (provider_ok : Bool) (resp : Except Unit (List PFile)) (now : Nat)
    (t : FsTree) (parent_inode : Nat) (name : String) : HRes :=
  match t.find_with_name parent_inode name with
  | some x => .reply (.entry TTL (x.2.toFileAttr now) 0) t
  | none =>
    match t.find_with_inode parent_inode with
    | none => .reply (.error ENOENT) t
    | some (paddr, pnode) =>
      match get_children provider_ok resp now pnode t with
      | .panic n t1 => .panic (t1.writeback paddr n)
      | .blocked n t1 => .blocked (t1.writeback paddr n)
      | .ret _ n t1 _ =>
        let t2 := t1.writeback paddr n
        match t2.find_with_name parent_inode name with
        | some x => .reply (.entry TTL (x.2.toFileAttr now) 0) t2
        | none => .reply (.error ENOENT) t2

/-- src/fuse.rs `Filesystem::getattr` (lines 214-229): inode 1 gets the fixed
root attributes; otherwise project the locally stored node (no provider call,
no mutation); `ENOENT` on an index miss. -/
def getattr (t : FsTree) (ino : Nat) (now : Nat) : Reply :=
  if ino = 1 then .attr TTL ROOT_DIR_ATTR
  else
    match t.find_with_inode ino with
    | some x => .attr TTL (x.2.toFileAttr now)
    | none => .error ENOENT

/-- The overlay `setattr` computes on the copy of the node's metadata: provided
fields replace the stored ones, absent fields keep their previous value,
`atime`/`mtime` default to (and `TimeOrNow::Now` maps to) the current time. -/
def setattrOverlay (md : Metadata) (uid gid size : Option Nat)
    (atime mtime : Option TimeOrNow) (ctime crtime : Option Nat) (now : Nat) :
    Metadata :=
  { md with
    size := size.getD md.size,
    atime := match atime.getD TimeOrNow.Now with
             | .SpecificTime x => x
             | .Now => now,
    mtime := match mtime.getD TimeOrNow.Now with
             | .SpecificTime x => x
             | .Now => now,
    ctime := ctime.getD md.ctime,
    crtime := crtime.getD md.crtime,
    uid := uid.getD md.uid,
    gid := gid.getD md.gid }

/-- src/fuse.rs `Filesystem::setattr` (lines 166-212) = src/fuse/attr.rs
`internal_setattr`.  The Rust `if let Some(mut metadata) = node.metadata`
binds a COPY (`Metadata` is `Copy`): the overlay (`setattrOverlay`) is applied
to that copy and discarded, so the node and the tree are left unchanged and
the reply projects the UNMODIFIED node.  A missing node or missing metadata
replies `ENOENT`. -/
def internal_setattr (t : FsTree) (ino : Nat) (uid gid size : Option Nat)
    (atime mtime : Option TimeOrNow) (ctime crtime : Option Nat) (now : Nat) : HRes :=
  match t.find_with_inode ino with
  | none => .reply (.error ENOENT) t
  | some (_, node) =>
    match node.metadata with
    | none => .reply (.error ENOENT) t
    | some md =>
      let _discarded := setattrOverlay md uid gid size atime mtime ctime crtime now
      .reply (.attr TTL (node.toFileAttr now)) t

/-- One `reply.add(ino, next_offset, kind, name)` emitted by readdir. -/
structure DirEntry : Type where
  ino : Nat
  next_offset : Nat
  kind : FileKind
  name : String
deriving DecidableEq, Repr

/-- Outcome of a readdir call: the entries added before `reply.ok()` (at most
one per call in this code), or a panic, or blocking inside hydration. -/
inductive RdRes : Type
  | done (entries : List DirEntry) (t : FsTree)
  | panic (t : FsTree)
  | blocked (t : FsTree)
deriving DecidableEq, Repr

/-- src/fuse.rs `Filesystem::readdir` (lines 231-275) = src/fuse/dir.rs
`internal_readdir`.  For the synthetic root (inode 1) offset k emits provider
root k.  For any other directory: offset 0 emits "." with ino hardcoded to 1,
offset 1 emits ".." with ino hardcoded to 1, and offset 2+k hydrates the
directory via `get_children` and emits child k of the snapshot with the
child's inode, kind and name.  Out-of-range offsets emit nothing. -/
def internal_readdir (provider_ok : Bool) (resp : Except Unit (List PFile))
    (now : Nat) (providers : List ProviderId) (t : FsTree) (dir_inode : Nat)
    (offset : Nat) : RdRes :=
  if dir_inode = 1 then
    match providers.get? offset with
    | none => .done [] t
    | some p =>
      match t.find_with_ids ObjectId.root p with
      | none => .panic t
      | some (_, node) =>
        .done [{ ino := node.inode, next_offset := offset + 1,
                 kind := FileKind.Directory, name := p.id }] t
  else
    match offset with
    | 0 => .done [{ ino := 1, next_offset := 1, kind := FileKind.Directory,
                    name := "." }] t
    | 1 => .done [{ ino := 1, next_offset := 2, kind := FileKind.Directory,
                    name := ".." }] t
    | Nat.succ (Nat.succ k) =>
      match t.find_with_inode dir_inode with
      | none => .done [] t
      | some (addr, node) =>
        match get_children provider_ok resp now node t with
        | .panic n t1 => .panic (t1.writeback addr n)
        | .blocked n t1 => .blocked (t1.writeback addr n)
        | .ret children n t1 _ =>
          let t2 := t1.writeback addr n
          match children.get? k with
          | none => .done [] t2
          | some caddr =>
            match alget t2.heap caddr with
            | none => .done [] t2
            | some c =>
              .done [{ ino := c.inode, next_offset := k + 3,
                       kind := if c.id.is_directory then FileKind.Directory
                               else FileKind.RegularFile,
                       name := c.name }] t2

/-- The `retain` of unlink/rmdir: keep the children whose (locked) node's name
differs from the removed one. -/
def pruneChildren (heap : List (Nat × FsNode)) (children : List Nat)
    (name : String) : List Nat :=
  children.filter (fun c =>
    match alget heap c with
    | some cn => decide (cn.name ≠ name)
    | none => true)

/-- src/fuse.rs `Filesystem::unlink` (lines 277-300) = src/fuse/node.rs
`internal_unlink`.  If the name-index misses, reply `ok` (success) without
touching anything.  On a hit: provider `delete` (`unwrap` — panic on error,
tree untouched at that point), then prune same-named children from the parent
(found through the inode index) and remove the node's index entries. -/
def unlink (provider_ok : Bool) (delResp : Except Unit Unit) (t : FsTree)
    (parent : Nat) (name : String) : HRes :=
  match t.find_with_name parent name with
  | none => .reply .ok t
  | some (_, node) =>
    if !provider_ok then .panic t
    else
      match delResp with
      | .error _ => .panic t
      | .ok _ =>
        let t1 :=
          match t.find_with_inode parent with
          | none => t
          | some (paddr, pnode) =>
            t.writeback paddr
              { pnode with children := pruneChildren t.heap pnode.children name }
        .reply .ok (t1.remove parent node)

/-- src/fuse.rs `Filesystem::rmdir` (lines 302-325) = src/fuse/dir.rs
`internal_rmdir`: identical body to `unlink`. -/
def rmdir (provider_ok : Bool) (delResp : Except Unit Unit) (t : FsTree)
    (parent : Nat) (name : String) : HRes :=
  match t.find_with_name parent name with
  | none => .reply .ok t
  | some (_, node) =>
    if !provider_ok then .panic t
    else
      match delResp with
      | .error _ => .panic t
      | .ok _ =>
        let t1 :=
          match t.find_with_inode parent with
          | none => t
          | some (paddr, pnode) =>
            t.writeback paddr
              { pnode with children := pruneChildren t.heap pnode.children name }
        .reply .ok (t1.remove parent node)

/-- The hand-rolled attribute record mknod/mkdir reply with (ino of the new
node, kind per the operation, perm 0o755, nlink 0, uid 501, gid 20, the
current time in all four timestamps). -/
def createReplyAttr (ino now : Nat) (kind : FileKind) : FileAttr :=
  { ino := ino, size := 0, blocks := 0, atime := now, mtime := now, ctime := now,
    crtime := now, kind := kind, perm := 0o755, nlink := 0, uid := 501, gid := 20,
    rdev := 0, blksize := 512, flags := 0 }

/-- src/fuse.rs `Filesystem::mknod` (lines 392-453) = src/fuse/node.rs
`internal_mknod`.  Resolve the parent by inode (`ENOENT` on a miss), call
provider `create` (`unwrap` — panic on error), then unconditionally insert a
new node via `FsTree::new_file` — there is no duplicate-name check — with the
object id `parent.id + "/" + name` (file flag), and reply its entry. -/
def internal_mknod (provider_ok : Bool) (createResp : Except Unit Unit)
    (t : FsTree) (parent : Nat) (name : String) (now : Nat) : HRes :=
  match t.find_with_inode parent with
  | none => .reply (.error ENOENT) t
  | some (paddr, pnode) =>
    if !provider_ok then .panic t
    else
      match createResp with
      | .error _ => .panic t
      | .ok _ =>
        let oid : ObjectId :=
          { path := pnode.id.path ++ "/" ++ name, kind := FileKind.RegularFile }
        let r := t.new_file pnode oid name none pnode.provider_id now
        .reply (.entry TTL (createReplyAttr r.2.2 now FileKind.RegularFile) 0)
               (r.1.writeback paddr r.2.1)

/-- src/fuse.rs `Filesystem::mkdir` (lines 327-390) = src/fuse/dir.rs
`internal_mkdir`: as `internal_mknod` but the composed object id carries the
directory flag and the replied kind is `Directory`.  No duplicate check. -/
def internal_mkdir (provider_ok : Bool) (createResp : Except Unit Unit)
    (t : FsTree) (parent : Nat) (name : String) (now : Nat) : HRes :=
  match t.find_with_inode parent with
  | none => .reply (.error ENOENT) t
  | some (paddr, pnode) =>
    if !provider_ok then .panic t
    else
      match createResp with
      | .error _ => .panic t
      | .ok _ =>
        let oid : ObjectId :=
          { path := pnode.id.path ++ "/" ++ name, kind := FileKind.Directory }
        let r := t.new_file pnode oid name none pnode.provider_id now
        .reply (.entry TTL (createReplyAttr r.2.2 now FileKind.Directory) 0)
               (r.1.writeback paddr r.2.1)

/-- Tail of `internal_rename` after the provider `rename` step: optional
`move_to` when the parent changes (both the `find_with_inode(newparent)`
`unwrap` and the `move_to` `unwrap` panic with the half-renamed node written
back), then clear the node's children, reset it to `ShallowReady`, store the
returned object id, and reply `ok`. -/
def renameTail (moveResp : Except Unit ObjectId) (t : FsTree) (addr : Nat)
    (node1 : FsNode) (parent newparent : Nat) (oid1 : ObjectId) : HRes :=
  if parent ≠ newparent then
    match t.find_with_inode newparent with
    | none => .panic (t.writeback addr node1)
    | some _ =>
      match moveResp with
      | .error _ => .panic (t.writeback addr node1)
      | .ok oid2 =>
        .reply .ok (t.writeback addr
          { node1 with children := [], content_state := FileState.ShallowReady,
                       id := oid2 })
  else
    .reply .ok (t.writeback addr
      { node1 with children := [], content_state := FileState.ShallowReady,
                   id := oid1 })

/-- src/fuse.rs `Filesystem::rename` (lines 474-514) = src/fuse/node.rs
`internal_rename`.  Resolve the source by `(parent, name)` (`ENOENT` on a
miss).  When the name changes: provider `rename` (`unwrap`), update the node's
`name`, move the name-index key via `FsTree::rename`.  When the parent
changes: provider `move_to` (`unwrap`).  Finally clear children, reset to
`ShallowReady`, and replace the node's object id with the provider's. -/
def internal_rename (provider_ok : Bool) (renameResp moveResp : Except Unit ObjectId)
    (t : FsTree) (parent : Nat) (name : String) (newparent : Nat)
    (newname : String) : HRes :=
  match t.find_with_name parent name with
  | none => .reply (.error ENOENT) t
  | some (addr, node) =>
    if !provider_ok then .panic t
    else
      if name ≠ newname then
        match renameResp with
        | .error _ => .panic t
        | .ok oid =>
          renameTail moveResp (t.rename parent name newname) addr
            { node with name := newname } parent newparent oid
      else
        renameTail moveResp t addr node parent newparent node.id

/-- Rust slice `data[start..stop]` on a byte vector: defined only when
`start ≤ stop ≤ len`, otherwise the program panics. -/
def rustSliceTo (data : List Nat) (start stop : Nat) : Option (List Nat) :=
  if start ≤ stop ∧ stop ≤ data.length then some ((data.take stop).drop start)
  else none

/-- src/fuse.rs `Filesystem::read` (lines 455-472) = src/fuse/node.rs
`internal_read`.  Resolve the inode (`ENOENT` on a miss), fetch the whole file
(`unwrap` — panic on error), and reply the slice
`data[offset .. min(offset+size, len)]` — which panics when `offset > len`. -/
def internal_read (provider_ok : Bool) (readResp : Except Unit (List Nat))
    (t : FsTree) (ino offset size : Nat) : HRes :=
  match t.find_with_inode ino with
  | none => .reply (.error ENOENT) t
  | some _ =>
    if !provider_ok then .panic t
    else
      match readResp with
      | .error _ => .panic t
      | .ok data =>
        match rustSliceTo data offset (min (offset + size) data.length) with
        | none => .panic t
        | some bytes => .reply (.data bytes) t

/-- Outcome of the duplicate-name guard at the top of `internal_symlink`. -/
inductive SymRes : Type
  | reply (r : Reply) (t : FsTree)
  | proceeds (t : FsTree)
deriving DecidableEq, Repr

/-- src/fuse/symlink.rs `FuseFS::internal_symlink`, lines 45-47: the handler's
first statement returns `EEXIST` when `(parent, name)` is already in the name
index, before any provider call or tree mutation.  `proceeds` stands for the
remainder of the handler (target-path walk and provider `create_link`), which
claim C5 does not touch. -/
def internal_symlink_guard (t : FsTree) (parent : Nat) (name : String) : SymRes :=
  match t.find_with_name parent name with
  | some _ => .reply (.error EEXIST) t
  | none => .proceeds t

/-- Reachability from the synthetic root (address 1) by descending `children`. -/
inductive Reaches (t : FsTree) : Nat → Prop where
  | root : Reaches t 1
  | step {a b : Nat} {n : FsNode} : Reaches t a → t.nodeAt a = some n →
      b ∈ n.children → Reaches t b

/-- The spec's index invariant, as claim C2 states it, at one address: the node
there is found in all three indices under its own keys (the `by_name` clause
for each parent whose children list holds the address). -/
def fullyIndexed (t : FsTree) (a : Nat) : Prop :=
  ∃ n, t.nodeAt a = some n ∧
    t.find_with_inode n.inode = some (a, n) ∧
    t.find_with_ids n.id n.provider_id = some (a, n) ∧
    ∀ p pn, t.nodeAt p = some pn → a ∈ pn.children →
      t.find_with_name p n.name = some (a, n)

/-- Claim C2's invariant over a whole tree: every reachable node — the
synthetic root included — is fully indexed. -/
def claim2Invariant (t : FsTree) : Prop :=
  ∀ a, Reaches t a → fullyIndexed t a

/-- What one provider-root child looks like while `FsTree::new` is seeding the
tree: present in the heap with empty children and indexed in all three maps;
`used` collects the names consumed so far (each equal to its provider's id). -/
def ProvChildOK (t : FsTree) (used : List String) (a : Nat) : Prop :=
  2 ≤ a ∧ a < t.next_inode ∧
  ∃ n, alget t.heap a = some n ∧ n.inode = a ∧ n.children = [] ∧
    n.name = n.provider_id.id ∧ n.name ∈ used ∧
    alget t.inodes a = some a ∧
    alget t.names (1, n.name) = some a ∧
    alget t.ids (n.id, n.provider_id) = some a

/-- Invariant of the `FsTree::new` seeding fold: every child of the synthetic
root satisfies `ProvChildOK`, and the three indices contain nothing else. -/
def ProvState (t : FsTree) (used : List String) : Prop :=
  2 ≤ t.next_inode ∧
  (∀ a ∈ t.root.children, ProvChildOK t used a) ∧
  (∀ k v, alget t.inodes k = some v → k = v ∧ v ∈ t.root.children) ∧
  (∀ k v, alget t.names k = some v → v ∈ t.root.children) ∧
  (∀ k v, alget t.ids k = some v → v ∈ t.root.children)

/-- The provider the binary always registers ("Local files", native fs). -/
def sampleP : ProviderId := { id := "Local files", provider_type := ProviderType.NativeFs }

/-- A second, distinct provider. -/
def sampleP2 : ProviderId := { id := "gdrive", provider_type := ProviderType.GoogleDrive }

/-- The tree after startup with the single provider `sampleP`: synthetic root
(inode 1) with one provider root at inode 2. -/
def tree1 : FsTree := FsTree.new [sampleP]

/-- The provider-root node of `tree1` (inode 2). -/
def node2val : FsNode := provNode ObjectId.root "Local files" 0 sampleP 2

/-- `tree1` after `mknod(2, "a")`: a file node "a" at inode 3 under the
provider root. -/
def tree2 : FsTree := (internal_mknod true (Except.ok ()) tree1 2 "a" 0).state

/-- The file node created by that mknod (inode 3, object id "/a"). -/
def node3val : FsNode :=
  fileNode { path := "/a", kind := FileKind.RegularFile } "a" none sampleP 3 0

/-- A hydrated directory node whose TTL deadline (`expire_at = 0`) has long
passed: `DeepReady`, cached children `[7]`. -/
def c1node : FsNode :=
  { id := { path := "d", kind := FileKind.Directory }, inode := 9, name := "d",
    metadata := none, expire_at := some 0, provider_id := sampleP,
    content_state := FileState.DeepReady, children := [7] }

/-- A directory listing entry the provider would return for `c1node`. -/
def c1file : PFile :=
  { id := { path := "d/new.txt", kind := FileKind.RegularFile }, name := "new.txt",
    metadata := none }

/-- A cold (`ShallowReady`) directory node, for the failed-hydration claims. -/
def c3node : FsNode :=
  { id := { path := "p", kind := FileKind.Directory }, inode := 9, name := "p",
    metadata := none, expire_at := none, provider_id := sampleP,
    content_state := FileState.ShallowReady, children := [] }

/-- The out-of-band file `new.txt` the provider reports under the provider
root of `tree1`. -/
def c4file : PFile :=
  { id := { path := "/new.txt", kind := FileKind.RegularFile }, name := "new.txt",
    metadata := none }

/-- The metadata `FsTree::new_provider` stores on a provider root of size 0. -/
def md2 : Metadata :=
  { size := 0, blocks := 0, atime := 0, mtime := 0, ctime := 0, crtime := 0,
    perm := 0o777, uid := 501, gid := 20, rdev := 0, blksize := 512, flags := 0 }

/-- The object id the provider returns from `rename(_, "b")` in the C7 witness. -/
def c7oid : ObjectId := { path := "/b", kind := FileKind.RegularFile }

/-- Children snapshot of a `get_children` outcome (empty on panic/blocked). -/
def GCRes.childrenOf : GCRes → List Nat
  | .ret ch _ _ _ => ch
  | .panic _ _ => []
  | .blocked _ _ => []

/-- Node value of a `get_children` outcome. -/
def GCRes.nodeOf : GCRes → FsNode
  | .ret _ n _ _ => n
  | .panic n _ => n
  | .blocked n _ => n

/-- Tree of a `get_children` outcome. -/
def GCRes.treeOf : GCRes → FsTree
  | .ret _ _ t _ => t
  | .panic _ t => t
  | .blocked _ t => t

/-- provider_called flag of a `get_children` outcome. -/
def GCRes.calledOf : GCRes → Bool
  | .ret _ _ _ c => c
  | .panic _ _ => false
  | .blocked _ _ => false

/-- Hydrating the provider root of `tree1` when the provider reports the
out-of-band file `new.txt`. -/
def c4gc : GCRes := get_children true (Except.ok [c4file]) 0 node2val tree1

/-- The tree after that hydration, with the provider root written back. -/
def c4t2 : FsTree := c4gc.treeOf.writeback 2 c4gc.nodeOf

/-- The provider-root node of `tree2` (children = [3]). -/
def c6node : FsNode := { node2val with children := [3] }

/-- Hydrating the provider root of `tree2` when the provider reports nothing
new (the C6 witness scenario). -/
def c6gc : GCRes := get_children true (Except.ok []) 0 c6node tree2

/-- The tree after that hydration, with the provider root written back. -/
def c6t2 : FsTree := c6gc.treeOf.writeback 2 c6gc.nodeOf

theorem alget_aldel {κ α : Type} [DecidableEq κ] (l : List (κ × α)) (k k' : κ) :
    alget (aldel l k) k' = if k' = k then none else alget l k' := by
  induction l with
  | nil => by_cases h : k' = k <;> simp [aldel, alget, h]
  | cons x rest ih =>
    obtain ⟨a, b⟩ := x
    by_cases hak : a = k <;> by_cases hak' : a = k' <;>
      simp_all [aldel, alget, List.filter_cons]

theorem alget_alput {κ α : Type} [DecidableEq κ] (l : List (κ × α)) (k : κ) (v : α)
    (k' : κ) : alget (alput l k v) k' = if k = k' then some v else alget l k' := by
  by_cases h : k = k'
  · simp [alput, alget, h]
  · rw [alput, alget, if_neg h, alget_aldel, if_neg (fun hh => h hh.symm), if_neg h]

theorem provstate_init : ProvState initTree [] := by
  refine ⟨le_refl 2, ?_, ?_, ?_, ?_⟩
  · intro a ha; simp [initTree] at ha
  · intro k v hkv; simp [initTree, alget] at hkv
  · intro k v hkv; simp [initTree, alget] at hkv
  · intro k v hkv; simp [initTree, alget] at hkv

theorem provstate_step (t : FsTree) (used : List String) (p : ProviderId)
    (hs : ProvState t used) (hf : p.id ∉ used) :
    ProvState ((t.new_provider ObjectId.root p.id 0 p).1) (p.id :: used) := by
  obtain ⟨hnext, hok, hinodes, hnames, hids⟩ := hs
  have hN : (t.new_provider ObjectId.root p.id 0 p).1.next_inode
      = t.next_inode + 1 := rfl
  refine ⟨?_, ?_, ?_, ?_, ?_⟩
  · rw [hN]
    omega
  · intro a ha
    have ha' : a ∈ t.root.children ++ [t.next_inode] := ha
    rcases List.mem_append.mp ha' with hold | hnew
    · obtain ⟨h2, hlt, n, hheap, hino, hch, hnmeq, hnmem, hi1, hi2, hi3⟩ := hok a hold
      refine ⟨h2, by rw [hN]; omega, n, ?_, hino, hch, hnmeq,
        List.mem_cons_of_mem _ hnmem, ?_, ?_, ?_⟩
      · show alget (alput t.heap t.next_inode _) a = some n
        rw [alget_alput, if_neg (by omega)]
        exact hheap
      · show alget (alput t.inodes t.next_inode t.next_inode) a = some a
        rw [alget_alput, if_neg (by omega)]
        exact hi1
      · show alget (alput t.names (1, p.id) t.next_inode) (1, n.name) = some a
        rw [alget_alput, if_neg ?_]
        · exact hi2
        · intro hkey
          have hpn : p.id = n.name := congrArg Prod.snd hkey
          exact hf (hpn ▸ hnmem)
      · show alget (alput t.ids (ObjectId.root, p) t.next_inode)
          (n.id, n.provider_id) = some a
        rw [alget_alput, if_neg ?_]
        · exact hi3
        · intro hkey
          have hpn : p = n.provider_id := congrArg Prod.snd hkey
          have : p.id = n.name := by rw [hpn, ← hnmeq]
          exact hf (this ▸ hnmem)
    · have haN : a = t.next_inode := by simpa using hnew
      subst haN
      refine ⟨by omega, by rw [hN]; omega,
        provNode ObjectId.root p.id 0 p t.next_inode,
        ?_, rfl, rfl, rfl, List.mem_cons_self _ _, ?_, ?_, ?_⟩
      · show alget (alput t.heap t.next_inode _) t.next_inode = some _
        rw [alget_alput, if_pos rfl]
      · show alget (alput t.inodes t.next_inode t.next_inode) t.next_inode
          = some t.next_inode
        rw [alget_alput, if_pos rfl]
      · show alget (alput t.names (1, p.id) t.next_inode) (1, p.id)
          = some t.next_inode
        rw [alget_alput, if_pos rfl]
      · show alget (alput t.ids (ObjectId.root, p) t.next_inode)
          (ObjectId.root, p) = some t.next_inode
        rw [alget_alput, if_pos rfl]
  · intro k v hkv
    have hkv' : (if t.next_inode = k then some t.next_inode else alget t.inodes k)
        = some v := by
      rw [← alget_alput]
      exact hkv
    by_cases h : t.next_inode = k
    · rw [if_pos h] at hkv'
      have hv : t.next_inode = v := Option.some.inj hkv'
      constructor
      · omega
      · show v ∈ t.root.children ++ [t.next_inode]
        rw [← hv]
        exact List.mem_append_right _ (List.mem_singleton.mpr rfl)
    · rw [if_neg h] at hkv'
      obtain ⟨hk, hmem⟩ := hinodes k v hkv'
      exact ⟨hk, List.mem_append_left _ hmem⟩
  · intro k v hkv
    have hkv' : (if (1, p.id) = k then some t.next_inode else alget t.names k)
        = some v := by
      rw [← alget_alput]
      exact hkv
    by_cases h : (1, p.id) = k
    · rw [if_pos h] at hkv'
      have hv : t.next_inode = v := Option.some.inj hkv'
      show v ∈ t.root.children ++ [t.next_inode]
      rw [← hv]
      exact List.mem_append_right _ (List.mem_singleton.mpr rfl)
    · rw [if_neg h] at hkv'
      exact List.mem_append_left _ (hnames k v hkv')
  · intro k v hkv
    have hkv' : (if (ObjectId.root, p) = k then some t.next_inode else alget t.ids k)
        = some v := by
      rw [← alget_alput]
      exact hkv
    by_cases h : (ObjectId.root, p) = k
    · rw [if_pos h] at hkv'
      have hv : t.next_inode = v := Option.some.inj hkv'
      show v ∈ t.root.children ++ [t.next_inode]
      rw [← hv]
      exact List.mem_append_right _ (List.mem_singleton.mpr rfl)
    · rw [if_neg h] at hkv'
      exact List.mem_append_left _ (hids k v hkv')

theorem provstate_fold (ps : List ProviderId) :
    ∀ (t : FsTree) (used : List String), ProvState t used →
      (∀ p ∈ ps, p.id ∉ used) → (ps.map ProviderId.id).Nodup →
      ∃ used', ProvState
        (ps.foldl (fun t p => (t.new_provider ObjectId.root p.id 0 p).1) t) used' := by
  induction ps with
  | nil => exact fun t used h _ _ => ⟨used, h⟩
  | cons p ps ih =>
    intro t used h hf hn
    rw [List.foldl_cons]
    have hn' : (∀ x ∈ ps, ¬x.id = p.id) ∧ (ps.map ProviderId.id).Nodup := by
      simpa using hn
    refine ih _ (p.id :: used)
      (provstate_step t used p h (hf p (List.mem_cons_self _ _))) ?_ hn'.2
    intro q hq hqmem
    rcases List.mem_cons.mp hqmem with hq1 | hq2
    · exact hn'.1 q hq hq1
    · exact hf q (List.mem_cons_of_mem _ hq) hq2

theorem provstate_new (ps : List ProviderId) (hn : (ps.map ProviderId.id).Nodup) :
    ∃ used, ProvState (FsTree.new ps) used :=
  provstate_fold ps initTree [] provstate_init (by intro p _ h; simp at h) hn

theorem provstate_reach {t : FsTree} {used : List String} (hs : ProvState t used) :
    ∀ a, Reaches t a → a = 1 ∨ a ∈ t.root.children := by
  intro a h
  induction h with
  | root => exact Or.inl rfl
  | @step x y n _ hnode hmem ih =>
    rcases ih with h1 | hch
    · subst h1
      have hn : t.root = n := by simpa [FsTree.nodeAt] using hnode
      exact Or.inr (hn ▸ hmem)
    · obtain ⟨h2, hlt, m, hheap, hino, hch0, _⟩ := hs.2.1 x hch
      have hx1 : x ≠ 1 := by omega
      rw [FsTree.nodeAt, if_neg hx1, hheap] at hnode
      have hmn : m = n := Option.some.inj hnode
      rw [← hmn, hch0] at hmem
      simp at hmem

/-- C1 (amended): for every directory node (outside the mount path, provider
registered) in `DeepReady`, `get_children` returns the cached children without
a provider call, for every `now` and every provider response — `expire_at` is
never consulted and no refresh/reconcile path exists. -/
theorem claim1_deepready_cached (resp : Except Unit (List PFile)) (now : Nat)
    (node : FsNode) (t : FsTree) (hdir : node.id.is_directory = true)
    (hmnt : strHasSub node.id.path mntPat = false)
    (hstate : node.content_state = FileState.DeepReady) :
    get_children true resp now node t = GCRes.ret node.children node t false := by
  simp [get_children, hdir, hmnt, hstate]

/-- C1 witness: the `DeepReady` node `c1node` returns its cached children. -/
theorem claim1_witness :
    c1node.content_state = FileState.DeepReady ∧
    get_children true (Except.ok [c1file]) 10 c1node tree1
      = GCRes.ret c1node.children c1node tree1 false :=
  ⟨rfl, claim1_deepready_cached (Except.ok [c1file]) 10 c1node tree1
    (by decide) (by decide) rfl⟩

/-- C1 counterexample: `c1node` is `DeepReady` with `expire_at = 0` long past
(`now = 10`), yet `get_children` returns the stale cached children `[7]` with
`provider_called = false` — it does not refetch or reconcile as the claim
states. -/
theorem claim1_counterexample :
    c1node.content_state = FileState.DeepReady ∧ c1node.expire_at = some 0 ∧
    (0 : Nat) < 10 ∧
    get_children true (Except.ok [c1file]) 10 c1node tree1
      = GCRes.ret c1node.children c1node tree1 false := by decide

/-- C3 (amended): when a provider call fails the handlers do not surface an
errno — every provider call is `unwrap`ed, so they panic.  A failed hydration
panics with the node left in `Loading` (not restored to its entry state); a
failed `delete` in unlink and a failed `create` in mknod panic before any tree
mutation. -/
theorem claim3_provider_failure_panics :
    (∀ (node : FsNode) (t : FsTree) (now : Nat),
      node.id.is_directory = true → strHasSub node.id.path mntPat = false →
      node.content_state = FileState.ShallowReady →
      get_children true (Except.error ()) now node t
        = GCRes.panic { node with content_state := FileState.Loading } t) ∧
    (∀ (t : FsTree) (parent : Nat) (name : String) (x : Nat × FsNode),
      t.find_with_name parent name = some x →
      unlink true (Except.error ()) t parent name = HRes.panic t) ∧
    (∀ (t : FsTree) (parent : Nat) (name : String) (now : Nat) (x : Nat × FsNode),
      t.find_with_inode parent = some x →
      internal_mknod true (Except.error ()) t parent name now = HRes.panic t) := by
  refine ⟨?_, ?_, ?_⟩
  · intro node t now h1 h2 h3
    simp [get_children, h1, h2, h3]
  · intro t parent name x h
    obtain ⟨a, n⟩ := x
    simp [unlink, h]
  · intro t parent name now x h
    obtain ⟨a, n⟩ := x
    simp [internal_mknod, h]

/-- C3 witness: hydrating the cold node `c3node` against a failing provider
panics with the node stuck in `Loading`. -/
theorem claim3_witness :
    get_children true (Except.error ()) 0 c3node tree1
      = GCRes.panic { c3node with content_state := FileState.Loading } tree1 :=
  claim3_provider_failure_panics.1 c3node tree1 0 (by decide) (by decide) rfl

/-- C3 counterexample: a failed hydration of the `ShallowReady` node `c3node`
produces a panic — not an errno reply — and leaves the node in `Loading`,
which differs from its pre-call state. -/
theorem claim3_counterexample :
    get_children true (Except.error ()) 7 c3node tree1
      = GCRes.panic { c3node with content_state := FileState.Loading } tree1 ∧
    c3node.content_state = FileState.ShallowReady ∧
    FileState.Loading ≠ FileState.ShallowReady := by decide

/-- C8 (amended): `unlink` and `rmdir` on a missing `(parent, name)` reply
success (`ok`), not `ENOENT`, and leave the tree unchanged. -/
theorem claim8_missing_name_ok (pok : Bool) (delResp : Except Unit Unit)
    (t : FsTree) (parent : Nat) (name : String)
    (h : t.find_with_name parent name = none) :
    unlink pok delResp t parent name = HRes.reply Reply.ok t ∧
    rmdir pok delResp t parent name = HRes.reply Reply.ok t ∧
    Reply.ok ≠ Reply.error ENOENT := by
  refine ⟨by simp [unlink, h], by simp [rmdir, h], by decide⟩

/-- C8 witness: unlinking a missing name in the freshly constructed tree. -/
theorem claim8_witness :
    (FsTree.new []).find_with_name 1 "nope" = none ∧
    unlink true (Except.ok ()) (FsTree.new []) 1 "nope"
      = HRes.reply Reply.ok (FsTree.new []) :=
  ⟨by decide,
   (claim8_missing_name_ok true (Except.ok ()) (FsTree.new []) 1 "nope" (by decide)).1⟩

/-- C8 counterexample: with no node named "nope" under the root, both `unlink`
and `rmdir` reply `ok` — not the `ENOENT` the claim requires. -/
theorem claim8_counterexample :
    unlink true (Except.ok ()) (FsTree.new []) 1 "nope"
      = HRes.reply Reply.ok (FsTree.new []) ∧
    rmdir true (Except.ok ()) (FsTree.new []) 1 "nope"
      = HRes.reply Reply.ok (FsTree.new []) ∧
    Reply.ok ≠ Reply.error ENOENT := by decide

/-- C10: `read` slices the fetched bytes as `[offset, min(offset+size, len))`;
when `offset ≤ len` this returns data, and for every input with `offset > len`
the slice's lower bound is out of range and the handler panics. -/
theorem claim10_read_slice (t : FsTree) (ino offset size : Nat)
    (data : List Nat) (x : Nat × FsNode)
    (hfind : t.find_with_inode ino = some x) :
    (offset ≤ data.length →
      internal_read true (Except.ok data) t ino offset size
        = HRes.reply
            (Reply.data ((data.take (min (offset + size) data.length)).drop offset))
            t) ∧
    (data.length < offset →
      internal_read true (Except.ok data) t ino offset size = HRes.panic t) := by
  obtain ⟨a, n⟩ := x
  constructor
  · intro hle
    have hcond : offset ≤ min (offset + size) data.length ∧
        min (offset + size) data.length ≤ data.length :=
      ⟨le_min (Nat.le_add_right _ _) hle, min_le_right _ _⟩
    simp only [internal_read, hfind, rustSliceTo, if_pos hcond]
    rfl
  · intro hlt
    have hcond : ¬ (offset ≤ min (offset + size) data.length ∧
        min (offset + size) data.length ≤ data.length) := by
      rintro ⟨h1, -⟩
      have h2 : min (offset + size) data.length ≤ data.length := min_le_right _ _
      omega
    simp only [internal_read, hfind, rustSliceTo, if_neg hcond]
    rfl

/-- C10 witness: reading 3 bytes at offset 1 replies the tail slice; reading
at offset 9 (> length 3) panics. -/
theorem claim10_witness :
    tree1.find_with_inode 2 = some (2, node2val) ∧
    internal_read true (Except.ok [10, 11, 12]) tree1 2 1 5
      = HRes.reply (Reply.data [11, 12]) tree1 ∧
    internal_read true (Except.ok [10, 11, 12]) tree1 2 9 5 = HRes.panic tree1 := by
  refine ⟨by decide, ?_, ?_⟩
  · exact ((claim10_read_slice tree1 2 1 5 [10, 11, 12] (2, node2val)
      (by decide)).1 (by decide)).trans (by decide)
  · exact (claim10_read_slice tree1 2 9 5 [10, 11, 12] (2, node2val)
      (by decide)).2 (by decide)

/-- C9 (code bug): `setattr(2, size := 100)` on the provider root of `tree1`
(stored size 0) replies the OLD attributes (size 0) and leaves the tree
untouched — the Rust code mutates a `Copy` of the metadata and discards it —
while the overlay the spec prescribes (`setattrOverlay`) would give size 100;
the subsequent `getattr` still reports size 0. -/
theorem claim9_setattr_discarded :
    internal_setattr tree1 2 none none (some 100) none none none none 5
      = HRes.reply (Reply.attr TTL (node2val.toFileAttr 5)) tree1 ∧
    (node2val.toFileAttr 5).size = 0 ∧
    (setattrOverlay md2 none none (some 100) none none none none 5).size = 100 ∧
    getattr tree1 2 5 = Reply.attr TTL (node2val.toFileAttr 5) := by decide

/-- C5 (amended): only the symlink handler guards against an existing
`(parent, name)` — it replies `EEXIST` with the tree untouched — while
`FsTree::new_file` (as invoked by mknod/mkdir) performs no duplicate check:
with the key already bound it overwrites the name-index entry with the new
inode and appends a second same-named child to the parent. -/
theorem claim5_duplicate_create :
    (∀ (t : FsTree) (parent : Nat) (name : String) (x : Nat × FsNode),
      t.find_with_name parent name = some x →
      internal_symlink_guard t parent name = SymRes.reply (Reply.error EEXIST) t) ∧
    (∀ (t : FsTree) (parent : FsNode) (oid : ObjectId) (name : String)
        (md : Option Metadata) (pid : ProviderId) (now a : Nat),
      alget t.names (parent.inode, name) = some a →
      alget (t.new_file parent oid name md pid now).1.names (parent.inode, name)
          = some t.next_inode ∧
      (t.new_file parent oid name md pid now).2.1.children
          = parent.children ++ [t.next_inode]) := by
  constructor
  · intro t parent name x h
    simp [internal_symlink_guard, h]
  · intro t parent oid name md pid now a h
    constructor
    · show alget (alput t.names (parent.inode, name) t.next_inode) _ = _
      rw [alget_alput, if_pos rfl]
    · rfl

/-- C5 witness: "a" already exists under the provider root of `tree2`, and the
symlink guard replies `EEXIST` with the tree unchanged. -/
theorem claim5_witness :
    tree2.find_with_name 2 "a" = some (3, node3val) ∧
    internal_symlink_guard tree2 2 "a" = SymRes.reply (Reply.error EEXIST) tree2 :=
  ⟨by decide, claim5_duplicate_create.1 tree2 2 "a" (3, node3val) (by decide)⟩

/-- C5 counterexample: `(2, "a")` is already bound (to inode 3) in `tree2`, yet
a second `mknod(2, "a")` does not fail with `EEXIST`: it creates inode 4,
overwrites the name-index entry, and leaves the parent with two children named
"a" — violating the claimed atomic `AlreadyExists` failure. -/
theorem claim5_counterexample :
    alget tree2.names (2, "a") = some 3 ∧
    (internal_mknod true (Except.ok ()) tree2 2 "a" 0).replyOf
      ≠ some (Reply.error EEXIST) ∧
    alget (internal_mknod true (Except.ok ()) tree2 2 "a" 0).state.names (2, "a")
      = some 4 ∧
    alget (internal_mknod true (Except.ok ()) tree2 2 "a" 0).state.heap 2
      = some { node2val with children := [3, 4] } := by decide

/-- C4 (amended): the `Filesystem::lookup` handler of src/fuse.rs replies from
the name index alone — a hit returns the entry with TTL 1 s, a miss replies
`ENOENT` with no hydration — while the unwired `internal_lookup` of
src/fuse/attr.rs hydrates the parent on a miss and retries the name lookup
exactly once before replying `ENOENT` (a hit, first or retried, returns the
node's projection with TTL 1 s). -/
theorem claim4_lookup_behavior (t : FsTree) (parent : Nat) (name : String)
    (resp : Except Unit (List PFile)) (now : Nat) :
    (∀ x, t.find_with_name parent name = some x →
      internal_lookup true resp now t parent name
        = HRes.reply (Reply.entry TTL (x.2.toFileAttr now) 0) t ∧
      lookup t parent name now = Reply.entry TTL (x.2.toFileAttr now) 0) ∧
    (t.find_with_name parent name = none →
      lookup t parent name now = Reply.error ENOENT) ∧
    (t.find_with_name parent name = none →
      ∀ paddr pnode ch n1 t1 pc,
        t.find_with_inode parent = some (paddr, pnode) →
        get_children true resp now pnode t = GCRes.ret ch n1 t1 pc →
        internal_lookup true resp now t parent name
          = match (t1.writeback paddr n1).find_with_name parent name with
            | some x => HRes.reply (Reply.entry TTL (x.2.toFileAttr now) 0)
                          (t1.writeback paddr n1)
            | none => HRes.reply (Reply.error ENOENT) (t1.writeback paddr n1)) ∧
    (t.find_with_name parent name = none →
      t.find_with_inode parent = none →
      internal_lookup true resp now t parent name
        = HRes.reply (Reply.error ENOENT) t) := by
  refine ⟨?_, ?_, ?_, ?_⟩
  · intro x h
    exact ⟨by simp [internal_lookup, h], by simp [lookup, h]⟩
  · intro h
    simp [lookup, h]
  · intro h paddr pnode ch n1 t1 pc hfind hgc
    simp only [internal_lookup, h, hfind, hgc]
  · intro h hp
    simp [internal_lookup, h, hp]

/-- C4 witness: the stale-lookup scenario — `new.txt` exists at the provider
but not yet in the tree; `internal_lookup` hydrates parent 2 and resolves the
retried name lookup against the hydrated tree. -/
theorem claim4_witness :
    tree1.find_with_name 2 "new.txt" = none ∧
    internal_lookup true (Except.ok [c4file]) 0 tree1 2 "new.txt"
      = match c4t2.find_with_name 2 "new.txt" with
        | some x => HRes.reply (Reply.entry TTL (x.2.toFileAttr 0) 0) c4t2
        | none => HRes.reply (Reply.error ENOENT) c4t2 := by
  refine ⟨by decide, ?_⟩
  exact (claim4_lookup_behavior tree1 2 "new.txt" (Except.ok [c4file]) 0).2.2.1
    (by decide) 2 node2val c4gc.childrenOf c4gc.nodeOf c4gc.treeOf c4gc.calledOf
    (by decide) (by decide)

/-- C4 counterexample: with `new.txt` created out-of-band (the provider
returns it but the index misses), the kernel-wired `lookup` handler replies
`ENOENT` without hydrating or retrying — only the unwired `internal_lookup`
performs the claimed hydrate-and-retry and finds the entry. -/
theorem claim4_counterexample :
    lookup tree1 2 "new.txt" 0 = Reply.error ENOENT ∧
    (internal_lookup true (Except.ok [c4file]) 0 tree1 2 "new.txt").isEntry
      = true := by decide

/-- C6 (amended): for every readdir on a directory other than the synthetic
root: offset 0 emits "." with ino hardcoded to 1 (not the directory's own
inode), offset 1 emits ".." with ino hardcoded to 1 (also for non-provider
roots), and offset 2+k emits child k of the hydrated children snapshot with
that child's inode, kind and name. -/
theorem claim6_readdir_offsets (pok : Bool) (resp : Except Unit (List PFile))
    (now : Nat) (providers : List ProviderId) (t : FsTree) (dir_inode : Nat)
    (hdir : dir_inode ≠ 1) :
    (internal_readdir pok resp now providers t dir_inode 0
      = RdRes.done [{ ino := 1, next_offset := 1, kind := FileKind.Directory,
                      name := "." }] t) ∧
    (internal_readdir pok resp now providers t dir_inode 1
      = RdRes.done [{ ino := 1, next_offset := 2, kind := FileKind.Directory,
                      name := ".." }] t) ∧
    (∀ k addr node ch n1 t1 pc caddr c,
      t.find_with_inode dir_inode = some (addr, node) →
      get_children pok resp now node t = GCRes.ret ch n1 t1 pc →
      ch.get? k = some caddr →
      alget (t1.writeback addr n1).heap caddr = some c →
      internal_readdir pok resp now providers t dir_inode (k + 2)
        = RdRes.done [{ ino := c.inode, next_offset := k + 3,
                        kind := if c.id.is_directory then FileKind.Directory
                                else FileKind.RegularFile,
                        name := c.name }] (t1.writeback addr n1)) := by
  refine ⟨?_, ?_, ?_⟩
  · simp [internal_readdir, hdir]
  · simp [internal_readdir, hdir]
  · intro k addr node ch n1 t1 pc caddr c hfind hgc hget hheap
    simp only [internal_readdir, if_neg hdir, hfind, hgc, hget, hheap]

/-- C6 witness: `readdir(2, offset 2)` on `tree2` emits child 0 — the file "a"
(inode 3) — with its own inode, kind and name. -/
theorem claim6_witness :
    tree2.find_with_inode 2 = some (2, c6node) ∧
    internal_readdir true (Except.ok []) 0 [sampleP] tree2 2 2
      = RdRes.done [{ ino := 3, next_offset := 3, kind := FileKind.RegularFile,
                      name := "a" }] c6t2 := by
  refine ⟨by decide, ?_⟩
  exact ((claim6_readdir_offsets true (Except.ok []) 0 [sampleP] tree2 2
      (by decide)).2.2 0 2 c6node c6gc.childrenOf c6gc.nodeOf c6gc.treeOf
      c6gc.calledOf 3 node3val (by decide) (by decide) (by decide)
      (by decide)).trans (by decide)

/-- C6 counterexample: `readdir(2, offset 0)` on the provider root (inode 2)
of `tree1` emits "." with ino 1 — not ino 2 as the claim ("ino equals
dir_inode itself") requires. -/
theorem claim6_counterexample :
    internal_readdir true (Except.ok []) 0 [sampleP] tree1 2 0
      = RdRes.done [{ ino := 1, next_offset := 1, kind := FileKind.Directory,
                      name := "." }] tree1 ∧
    (1 : Nat) ≠ 2 := by decide

/-- C7: after a successful same-parent rename of `name` to `newname`
(`name ≠ newname`), looking up the old name replies `ENOENT` and looking up
the new name returns a node carrying the renamed node's original inode. -/
theorem claim7_rename_lookup (t : FsTree) (parent : Nat) (name newname : String)
    (addr : Nat) (node : FsNode) (oidr : ObjectId) (now : Nat)
    (ha : alget t.names (parent, name) = some addr)
    (hh : alget t.heap addr = some node)
    (hne : name ≠ newname) :
    ∃ t', internal_rename true (Except.ok oidr) (Except.ok oidr) t parent name
            parent newname = HRes.reply Reply.ok t' ∧
      lookup t' parent name now = Reply.error ENOENT ∧
      (∃ m, t'.find_with_name parent newname = some (addr, m) ∧
        m.inode = node.inode) ∧
      (∃ fa, lookup t' parent newname now = Reply.entry TTL fa 0 ∧
        fa.ino = node.inode) := by
  have hfind : t.find_with_name parent name = some (addr, node) := by
    simp [FsTree.find_with_name, ha, hh]
  have hnames1 : (t.rename parent name newname).names
      = alput (aldel t.names (parent, name)) (parent, newname) addr := by
    simp [FsTree.rename, ha]
  set nodeR : FsNode :=
    { node with
        name := newname, children := [],
        content_state := FileState.ShallowReady, id := oidr } with hnodeR
  set tR : FsTree := (t.rename parent name newname).writeback addr nodeR with htR
  have hw_names : tR.names = (t.rename parent name newname).names := rfl
  have hw_heap : tR.heap = alput (t.rename parent name newname).heap addr nodeR := rfl
  have hmiss : alget tR.names (parent, name) = none := by
    rw [hw_names, hnames1, alget_alput,
      if_neg (fun hk => hne (congrArg Prod.snd hk).symm), alget_aldel, if_pos rfl]
  have hhit : tR.find_with_name parent newname = some (addr, nodeR) := by
    have h1 : alget tR.names (parent, newname) = some addr := by
      rw [hw_names, hnames1, alget_alput, if_pos rfl]
    have h2 : alget tR.heap addr = some nodeR := by
      rw [hw_heap, alget_alput, if_pos rfl]
    simp [FsTree.find_with_name, h1, h2]
  refine ⟨tR, ?_, ?_, ⟨nodeR, hhit, rfl⟩, ⟨nodeR.toFileAttr now, ?_, rfl⟩⟩
  · simp [internal_rename, hfind, hne, renameTail, htR, hnodeR]
  · simp [lookup, FsTree.find_with_name, hmiss]
  · simp [lookup, hhit]


/-- C7 witness: renaming "a" (inode 3) to "b" under the provider root of
`tree2`: the old name then misses and the new name resolves to inode 3. -/
theorem claim7_witness :
    alget tree2.names (2, "a") = some 3 ∧
    (∃ t', internal_rename true (Except.ok c7oid) (Except.ok c7oid) tree2 2 "a"
        2 "b" = HRes.reply Reply.ok t' ∧
      lookup t' 2 "a" 0 = Reply.error ENOENT ∧
      (∃ m, t'.find_with_name 2 "b" = some (3, m) ∧ m.inode = node3val.inode) ∧
      (∃ fa, lookup t' 2 "b" 0 = Reply.entry TTL fa 0 ∧
        fa.ino = node3val.inode)) :=
  ⟨by decide, claim7_rename_lookup tree2 2 "a" "b" 3 node3val c7oid 0
    (by decide) (by decide) (by decide)⟩

/-- C2 (amended): after `FsTree` construction with providers of pairwise
distinct ids, every node reachable from the root OTHER THAN the synthetic root
is present in all three indices (`by_inode` under its inode, `by_name` under
(1, its name), `by_object` under its (object id, provider id)), and every
index entry targets a reachable node; the synthetic root itself (inode 1) is
in no index.  The mutators maintain this only locally: `new_file` inserts the
created node into all three indices and appends it to the parent's children;
`FsTree::rename` moves only the `by_name` key, leaving the node's own `name`
field to its caller; `FsTree::remove` deletes the node's three index entries,
leaving the parent's children list to its caller. -/
theorem claim2_index_invariant (ps : List ProviderId)
    (hn : (ps.map ProviderId.id).Nodup) :
    (∀ a, Reaches (FsTree.new ps) a → a ≠ 1 →
      ∃ n, alget (FsTree.new ps).heap a = some n ∧ n.inode = a ∧
        (FsTree.new ps).find_with_inode a = some (a, n) ∧
        (FsTree.new ps).find_with_name 1 n.name = some (a, n) ∧
        (FsTree.new ps).find_with_ids n.id n.provider_id = some (a, n)) ∧
    (∀ k v, alget (FsTree.new ps).inodes k = some v → Reaches (FsTree.new ps) v) ∧
    (∀ k v, alget (FsTree.new ps).names k = some v → Reaches (FsTree.new ps) v) ∧
    (∀ k v, alget (FsTree.new ps).ids k = some v → Reaches (FsTree.new ps) v) ∧
    alget (FsTree.new ps).inodes 1 = none ∧
    (∀ (t : FsTree) (parent : FsNode) (oid : ObjectId) (nm : String)
        (md : Option Metadata) (pid : ProviderId) (now : Nat),
      (t.new_file parent oid nm md pid now).2.2 = t.next_inode ∧
      (t.new_file parent oid nm md pid now).2.1.children
        = parent.children ++ [t.next_inode] ∧
      alget (t.new_file parent oid nm md pid now).1.inodes t.next_inode
        = some t.next_inode ∧
      alget (t.new_file parent oid nm md pid now).1.names (parent.inode, nm)
        = some t.next_inode ∧
      alget (t.new_file parent oid nm md pid now).1.ids (oid, pid)
        = some t.next_inode ∧
      alget (t.new_file parent oid nm md pid now).1.heap t.next_inode
        = some (fileNode oid nm md pid t.next_inode now) ∧
      (t.new_file parent oid nm md pid now).1.root = t.root) ∧
    (∀ (t : FsTree) (pin : Nat) (old nw : String) (a : Nat),
      alget t.names (pin, old) = some a → old ≠ nw →
      alget (t.rename pin old nw).names (pin, nw) = some a ∧
      alget (t.rename pin old nw).names (pin, old) = none ∧
      (t.rename pin old nw).inodes = t.inodes ∧
      (t.rename pin old nw).ids = t.ids ∧
      (t.rename pin old nw).heap = t.heap ∧
      (t.rename pin old nw).root = t.root) ∧
    (∀ (t : FsTree) (pin : Nat) (n : FsNode),
      alget (t.remove pin n).inodes n.inode = none ∧
      alget (t.remove pin n).names (pin, n.name) = none ∧
      alget (t.remove pin n).ids (n.id, n.provider_id) = none ∧
      (t.remove pin n).heap = t.heap ∧
      (t.remove pin n).root = t.root) := by
  obtain ⟨used, hs⟩ := provstate_new ps hn
  obtain ⟨hnext, hok, hinodes, hnames, hids⟩ := hs
  refine ⟨?_, ?_, ?_, ?_, ?_, ?_, ?_, ?_⟩
  · intro a hr ha1
    rcases provstate_reach ⟨hnext, hok, hinodes, hnames, hids⟩ a hr with h1 | hch
    · exact absurd h1 ha1
    · obtain ⟨h2, hlt, n, hheap, hino, hch0, hnmeq, hnmem, hi1, hi2, hi3⟩ :=
        hok a hch
      refine ⟨n, hheap, hino, ?_, ?_, ?_⟩
      · simp [FsTree.find_with_inode, hi1, hheap]
      · simp [FsTree.find_with_name, hi2, hheap]
      · simp [FsTree.find_with_ids, hi3, hheap]
  · intro k v hkv
    obtain ⟨-, hmem⟩ := hinodes k v hkv
    exact Reaches.step Reaches.root (by simp [FsTree.nodeAt]) hmem
  · intro k v hkv
    exact Reaches.step Reaches.root (by simp [FsTree.nodeAt]) (hnames k v hkv)
  · intro k v hkv
    exact Reaches.step Reaches.root (by simp [FsTree.nodeAt]) (hids k v hkv)
  · cases h1 : alget (FsTree.new ps).inodes 1 with
    | none => rfl
    | some v =>
      obtain ⟨hk, hmem⟩ := hinodes 1 v h1
      obtain ⟨h2, -, -⟩ := hok v hmem
      omega
  · intro t parent oid nm md pid now
    refine ⟨rfl, rfl, ?_, ?_, ?_, ?_, rfl⟩
    · show alget (alput t.inodes t.next_inode t.next_inode) t.next_inode = _
      rw [alget_alput, if_pos rfl]
    · show alget (alput t.names (parent.inode, nm) t.next_inode)
        (parent.inode, nm) = _
      rw [alget_alput, if_pos rfl]
    · show alget (alput t.ids (oid, pid) t.next_inode) (oid, pid) = _
      rw [alget_alput, if_pos rfl]
    · show alget (alput t.heap t.next_inode _) t.next_inode = _
      rw [alget_alput, if_pos rfl]
  · intro t pin old nw a hget hne
    have hr : (t.rename pin old nw).names
        = alput (aldel t.names (pin, old)) (pin, nw) a := by
      simp [FsTree.rename, hget]
    have hsame : (t.rename pin old nw).inodes = t.inodes ∧
        (t.rename pin old nw).ids = t.ids ∧
        (t.rename pin old nw).heap = t.heap ∧
        (t.rename pin old nw).root = t.root := by
      simp [FsTree.rename, hget]
    refine ⟨?_, ?_, hsame.1, hsame.2.1, hsame.2.2.1, hsame.2.2.2⟩
    · rw [hr, alget_alput, if_pos rfl]
    · rw [hr, alget_alput, if_neg (fun hk => hne (congrArg Prod.snd hk).symm),
        alget_aldel, if_pos rfl]
  · intro t pin n
    refine ⟨?_, ?_, ?_, rfl, rfl⟩
    · show alget (aldel t.inodes n.inode) n.inode = none
      rw [alget_aldel, if_pos rfl]
    · show alget (aldel t.names (pin, n.name)) (pin, n.name) = none
      rw [alget_aldel, if_pos rfl]
    · show alget (aldel t.ids (n.id, n.provider_id)) (n.id, n.provider_id) = none
      rw [alget_aldel, if_pos rfl]

/-- C2 witness: the two-provider startup tree has pairwise-distinct provider
ids and its synthetic root is indeed absent from the inode index. -/
theorem claim2_witness :
    ([sampleP, sampleP2].map ProviderId.id).Nodup ∧
    alget (FsTree.new [sampleP, sampleP2]).inodes 1 = none :=
  ⟨by decide, (claim2_index_invariant [sampleP, sampleP2] (by decide)).2.2.2.2.1⟩

/-- C2 counterexample: in `FsTree.new []` the synthetic root (inode 1) is
reachable, yet `FsTree::new` never inserts it into any index: `by_inode` has
no entry for inode 1, refuting the claim that the invariant includes the root
itself. -/
theorem claim2_counterexample : ¬ claim2Invariant (FsTree.new []) := by
  intro h
  obtain ⟨n, hn, hino, -, -⟩ := h 1 Reaches.root
  have hroot : initTree.root = n := by
    simpa [FsTree.new, FsTree.nodeAt] using hn
  rw [← hroot] at hino
  simp [FsTree.new, initTree, FsTree.find_with_inode, alget] at hino

end Fuse
